import Mathlib
set_option autoImplicit false
set_option maxRecDepth 8192
/-!
Verification development for the git-cloner tool (src/git-cloner.py).

Python strings are modelled as lists of characters (`Str`); the Python string
operations used by the source (`split`, `strip`, `startswith`, `endswith`)
are embedded as executable functions on `Str`.  Filesystem, subprocess and
network effects are modelled by explicit environments and operation traces.
-/

abbrev Str := List Char

/-- Python `s.startswith(pat)` on character lists. -/
def strStarts : Str → Str → Bool
  | _, [] => true
  | [], _ :: _ => false
  | c :: cs, d :: ds => decide (c = d) && strStarts cs ds

/-- Python `s.endswith(pat)` on character lists. -/
def strEnds (s pat : Str) : Bool :=
  strStarts s.reverse pat.reverse

/-- Python `s.split(c)` for a single-character separator: never returns the
empty list; the empty string splits to `[""]`. -/
def pySplit (c : Char) : Str → List Str
  | [] => [[]]
  | d :: ds =>
    if d = c then [] :: pySplit c ds
    else
      match pySplit c ds with
      | [] => [[d]]
      | g :: gs => (d :: g) :: gs

/-- Split at the first occurrence of `c`, if any (models `str.find` + slicing). -/
def splitFirst (c : Char) : Str → Option (Str × Str)
  | [] => none
  | d :: ds =>
    if d = c then some ([], ds)
    else (splitFirst c ds).map (fun p => (d :: p.1, p.2))

/-- Python `s.strip(c)` for a single-character strip set: removes all leading
and all trailing occurrences of `c`. -/
def stripChar (c : Char) (s : Str) : Str :=
  ((s.dropWhile (· = c)).reverse.dropWhile (· = c)).reverse

/-- The `.git` suffix (line 85/102 of the source strips it). -/
def gitSuf : Str := ['.', 'g', 'i', 't']

/-- Remove a trailing `.git` if present — `if path.endswith(".git"): path = path[:-4]`. -/
def dropGit (s : Str) : Str :=
  if strEnds s gitSuf then s.take (s.length - 4) else s

/-- Characters CPython's `urlsplit` allows in a URL scheme. -/
def isSchemeChar (c : Char) : Bool :=
  c.isAlphanum || c == '+' || c == '-' || c == '.'

/-- CPython scheme validity test: nonempty, leading ASCII letter, scheme chars. -/
def isValidScheme : Str → Bool
  | [] => false
  | c :: cs => c.isAlpha && cs.all isSchemeChar

/-- Model of `urllib.parse.urlparse`, restricted to the `(netloc, path)`
components for URLs without query or fragment parts (none of the inputs the
source handles carry them): the text before the first `:` is treated as a
scheme when it is a valid scheme; a netloc is parsed only after `//`. -/
def pyUrlparse (url : Str) : Str × Str :=
  let rest :=
    match splitFirst ':' url with
    | some (sch, r) => if isValidScheme sch then r else url
    | none => url
  if strStarts rest ['/', '/'] then
    let after := rest.drop 2
    (after.takeWhile (· != '/'), after.dropWhile (· != '/'))
  else ([], rest)

/-- The `git@` marker the source uses to detect SSH-style URLs (line 76). -/
def gitAt : Str := ['g', 'i', 't', '@']

/-- `GitCloner.parse_git_url` (lines 73-112): decompose a clone URL into
`(host, org, repo)`.  A raised `ValueError` is modelled as `.error`. -/
def parse_git_url (git_url : Str) : Except Str (Str × Str × Str) :=
  if strStarts git_url gitAt then
    match pySplit ':' git_url with
    | [p0, p1] =>
      let host := match pySplit '@' p0 with
        | _ :: h :: _ => h
        | _ => []
      let path_part := dropGit p1
      match pySplit '/' path_part with
      | [org, repo] => .ok (host, org, repo)
      | _ => .error ("Invalid SSH git URL format".toList)
    | _ => .error ("Invalid SSH git URL format".toList)
  else
    let np := pyUrlparse git_url
    let path := dropGit (stripChar '/' np.2)
    match pySplit '/' path with
    | [org, repo] => .ok (np.1, org, repo)
    | _ => .error ("Invalid git URL format".toList)

/-- `GitCloner.get_local_path` (lines 114-116): `base_dir / host / org / repo`. -/
def get_local_path (base_dir host org repo : Str) : Str :=
  base_dir ++ '/' :: host ++ '/' :: org ++ '/' :: repo

/-- `GitCloner.is_org_user_url` (lines 37-51): true iff the URL path has
exactly one non-empty segment.  The redundant trailing-slash removal of the
source (dead after `strip("/")`) is preserved. -/
def is_org_user_url (url : Str) : Bool :=
  let path1 := stripChar '/' (pyUrlparse url).2
  let path := if strEnds path1 ['/'] then path1.dropLast else path1
  match pySplit '/' path with
  | [seg] => !seg.isEmpty
  | _ => false

/-- `GitCloner.parse_org_user_url` (lines 53-71). -/
def parse_org_user_url (url : Str) : Except Str (Str × Str) :=
  let np := pyUrlparse url
  let path1 := stripChar '/' np.2
  let path := if strEnds path1 ['/'] then path1.dropLast else path1
  match pySplit '/' path with
  | [seg] =>
    if seg.isEmpty then .error ("Invalid org/user URL format".toList)
    else .ok (np.1, seg)
  | _ => .error ("Invalid org/user URL format".toList)

/-- One line of the repository index `repos.jsonl` as a parsed record
(`url` is the unique key; all fields are strings, as in the source). -/
structure IndexEntry where
  url : Str
  local_path : Str
  host : Str
  org : Str
  repo : Str
  branch : Str
  last_hash : Str
  last_pull : Str
deriving DecidableEq, Repr

/-- `GitCloner.add_to_index` (lines 319-338) at the entry level: linear scan
for the first entry with the same `url`, replace it in place, else append.
(The surrounding file read/write is modelled separately by `read_index`.) -/
def add_to_index : List IndexEntry → IndexEntry → List IndexEntry
  | [], entry => [entry]
  | e :: es, entry => if e.url = entry.url then entry :: es else e :: add_to_index es entry

/-- The index invariant: `url` is unique across all records. -/
def urlsUnique (entries : List IndexEntry) : Prop :=
  (entries.map (·.url)).Nodup

instance (entries : List IndexEntry) : Decidable (urlsUnique entries) := by
  unfold urlsUnique
  infer_instance

/-- One physical line of the index file, at the granularity the source reads
it: blank after `strip()` (skipped), a JSON object that decodes to a record,
or a line on which `json.loads` raises. -/
inductive IndexLine where
  | blank
  | entry (e : IndexEntry)
  | malformed
deriving DecidableEq, Repr

/-- The loop body of `GitCloner.read_index` (lines 345-351) inside its
`try`: entries are accumulated top to bottom; a malformed line raises, which
aborts the whole loop (`none`). -/
def readIndexLines : List IndexLine → Option (List IndexEntry)
  | [] => some []
  | .blank :: ls => readIndexLines ls
  | .entry e :: ls => (readIndexLines ls).map (e :: ·)
  | .malformed :: _ => none

/-- `GitCloner.read_index` (lines 340-356): a missing file (`none`) reads as
the empty list; an exception inside the loop is caught, an error is printed,
and the empty list is returned (`Option.getD`). -/
def read_index : Option (List IndexLine) → List IndexEntry
  | none => []
  | some ls => (readIndexLines ls).getD []

/-- One remote repository descriptor built by `fetch_github_repos`
(lines 181-190).  The source field `private` is a Lean keyword and is named
`priv` here. -/
structure RepoDescriptor where
  name : Str
  clone_url : Str
  ssh_url : Str
  default_branch : Str
  description : Str
  priv : Bool
  fork : Bool
deriving DecidableEq, Repr

/-- Result of fetching one page (the org endpoint with per-page user-endpoint
fallback collapsed into one observation of the network): a decoded JSON array,
a 404 on both endpoints, a 403 rate limit, or another HTTP error. -/
inductive PageResult where
  | ok (repos : List RepoDescriptor)
  | notFound
  | rateLimited
  | httpError
deriving DecidableEq, Repr

/-- The remote API as an environment: what each numbered page returns. -/
structure FetchEnv where
  fetchPage : Nat → PageResult

/-- The `while True` pagination loop of `GitCloner.fetch_github_repos`
(lines 154-205), with explicit fuel for the unbounded retry/next-page loop.
Returns the accumulated descriptors (or the raised error) together with the
list of page numbers fetched, in order; a rate-limited page is retried after
the fixed pause. -/
def fetchLoop (env : FetchEnv) : Nat → Nat → List RepoDescriptor → List Nat →
    Option (Except Str (List RepoDescriptor) × List Nat)
  | 0, _, _, _ => none
  | fuel + 1, page, acc, fetched =>
    match env.fetchPage page with
    | .ok repos =>
      if repos = [] then some (.ok acc, fetched ++ [page])
      else fetchLoop env fuel (page + 1) (acc ++ repos) (fetched ++ [page])
    | .notFound => some (.error ("Organization or user not found".toList), fetched ++ [page])
    | .rateLimited => fetchLoop env fuel page acc (fetched ++ [page])
    | .httpError => some (.error ("GitHub API error".toList), fetched ++ [page])

/-- `GitCloner.fetch_github_repos` (lines 145-207): only `github.com` is
supported; pagination starts at page 1 with an empty accumulator. -/
def fetch_github_repos (env : FetchEnv) (host org_user : Str) (fuel : Nat) :
    Option (Except Str (List RepoDescriptor) × List Nat) :=
  if host = "github.com".toList then fetchLoop env fuel 1 [] []
  else some (.error ("API fetching only supported for GitHub".toList), [])

/-- The filesystem / subprocess world the cloner runs against: path existence,
whether `git clone` and `git pull` succeed, what `get_git_info` reports
(`none` models a failing subprocess), and `datetime.now().isoformat()`. -/
structure SysEnv where
  pathExists : Str → Bool
  cloneOk : Str → Str → Bool
  gitInfo : Str → Option (Str × Str)
  pullOk : Str → Bool
  nowStr : Str

/-- Observable operations of a run, in order: subprocess invocations,
index-file writes, and the user-facing reports the claims mention. -/
inductive Op where
  | mkdirParents (p : Str)
  | gitClone (url : Str) (dest : Str) (branch : Option Str)
  | gitPull (p : Str)
  | writeIndexOp (entries : List IndexEntry)
  | printEntry (e : IndexEntry)
  | reportExists (p : Str)
  | reportMissing (p : Str)
  | reportFiltered (n : Nat)
  | reportSummary (cloned skipped : Nat)
  | reportCloneError
  | reportBulkError
  | reportSyncError (p : Str)
  | reportNoRepos
deriving DecidableEq, Repr

/-- `GitCloner.clone_repository` (lines 266-317), threading the index file
state as a list of entries.  Returns (success flag, new index state, trace).
A pre-existing destination is the skip outcome: two messages are printed and
`False` is returned before any subprocess runs; every exception inside the
`try` is caught and also yields `False` (lines 315-317). -/
def clone_repository (env : SysEnv) (base_dir : Str) (index : List IndexEntry)
    (git_url : Str) (branch : Option Str) : Bool × List IndexEntry × List Op :=
  match parse_git_url git_url with
  | .error _ => (false, index, [Op.reportCloneError])
  | .ok (host, org, repo) =>
    let local_path := get_local_path base_dir host org repo
    if env.pathExists local_path then
      (false, index, [Op.reportExists local_path])
    else if env.cloneOk git_url local_path then
      match env.gitInfo local_path with
      | some (br, h) =>
        let entry : IndexEntry :=
          { url := git_url, local_path := local_path, host := host, org := org,
            repo := repo, branch := br, last_hash := h, last_pull := env.nowStr }
        let newIndex := add_to_index index entry
        (true, newIndex,
          [Op.mkdirParents local_path, Op.gitClone git_url local_path branch,
           Op.writeIndexOp newIndex])
      | none =>
        (false, index,
          [Op.mkdirParents local_path, Op.gitClone git_url local_path branch,
           Op.reportCloneError])
    else
      (false, index,
        [Op.mkdirParents local_path, Op.gitClone git_url local_path branch,
         Op.reportCloneError])

/-- The success/failure outcome of one clone attempt, which depends only on
the environment and URL, not on the index state. -/
def cloneOutcome (env : SysEnv) (base_dir git_url : Str) (branch : Option Str) : Bool :=
  (clone_repository env base_dir [] git_url branch).1

/-- The fork filter of `clone_org_user_repos` (lines 225-229). -/
def filterForks (include_forks : Bool) (repos : List RepoDescriptor) :
    List RepoDescriptor :=
  if include_forks then repos else repos.filter (fun r => !r.fork)

/-- The per-repository loop of `clone_org_user_repos` (lines 236-254):
sequentially clone each descriptor via its HTTPS `clone_url`, counting
successes (`cloned_count`) and everything else (`skipped_count`) — the
returned quadruple is (cloned, skipped, final index, trace). -/
def cloneLoop (env : SysEnv) (base_dir : Str) (branch : Option Str) :
    List RepoDescriptor → List IndexEntry → Nat × Nat × List IndexEntry × List Op
  | [], index => (0, 0, index, [])
  | r :: rs, index =>
    let res := clone_repository env base_dir index r.clone_url branch
    let rest := cloneLoop env base_dir branch rs res.2.1
    if res.1 then (rest.1 + 1, rest.2.1, rest.2.2.1, res.2.2 ++ rest.2.2.2)
    else (rest.1, rest.2.1 + 1, rest.2.2.1, res.2.2 ++ rest.2.2.2)

/-- Lines 220-260 of `clone_org_user_repos`, once the descriptor list has
been fetched: early return on an empty list, fork filtering with its report
(printed only when at least one fork was removed), the clone loop, and the
final cloned/skipped summary. -/
def bulkClonePhase (env : SysEnv) (base_dir : Str) (branch : Option Str)
    (include_forks : Bool) (index : List IndexEntry)
    (repos : List RepoDescriptor) : Nat × List IndexEntry × List Op :=
  if repos = [] then (0, index, [Op.reportNoRepos])
  else
    let repos2 := filterForks include_forks repos
    let filtOps : List Op :=
      if repos2.length < repos.length then
        [Op.reportFiltered (repos.length - repos2.length)]
      else []
    let res := cloneLoop env base_dir branch repos2 index
    (res.1, res.2.2.1, filtOps ++ res.2.2.2 ++ [Op.reportSummary res.1 res.2.1])

/-- `GitCloner.clone_org_user_repos` (lines 209-264).  The whole body sits in
a `try/except` that prints the error and returns 0, so parse failures,
unsupported hosts and enumeration failures all yield `some (0, index, _)`;
`none` is the fuel-exhaustion artefact of the unbounded pagination loop. -/
def clone_org_user_repos (env : SysEnv) (fenv : FetchEnv) (base_dir : Str)
    (index : List IndexEntry) (url : Str) (branch : Option Str)
    (include_forks : Bool) (fuel : Nat) : Option (Nat × List IndexEntry × List Op) :=
  match parse_org_user_url url with
  | .error _ => some (0, index, [Op.reportBulkError])
  | .ok (host, org_user) =>
    match fetch_github_repos fenv host org_user fuel with
    | none => none
    | some (.error _, _) => some (0, index, [Op.reportBulkError])
    | some (.ok repos, _) =>
      some (bulkClonePhase env base_dir branch include_forks index repos)

/-- The per-entry body of the sync loop (lines 377-406): a missing local
path is reported and the entry is left untouched with no pull; otherwise
`git pull` runs, and on success `get_git_info` refreshes branch/hash/time
(a failure of either leaves the entry unchanged, reported). -/
def syncEntry (env : SysEnv) (e : IndexEntry) : IndexEntry × List Op :=
  if env.pathExists e.local_path then
    if env.pullOk e.local_path then
      match env.gitInfo e.local_path with
      | some (br, h) =>
        ({ e with branch := br, last_hash := h, last_pull := env.nowStr },
         [Op.gitPull e.local_path])
      | none => (e, [Op.gitPull e.local_path, Op.reportSyncError e.local_path])
    else (e, [Op.gitPull e.local_path, Op.reportSyncError e.local_path])
  else (e, [Op.reportMissing e.local_path])

/-- `GitCloner.sync_repositories` (lines 367-410): early return on an empty
index (no write); otherwise every entry is processed in order and the whole
index is written back exactly once at the end. -/
def sync_repositories (env : SysEnv) (entries : List IndexEntry) :
    List IndexEntry × List Op :=
  if entries = [] then (entries, [Op.reportNoRepos])
  else
    let results := entries.map (syncEntry env)
    let newEntries := results.map (·.1)
    (newEntries, (results.map (·.2)).flatten ++ [Op.writeIndexOp newEntries])

/-- `GitCloner.list_repositories` (lines 412-430) as its observable trace. -/
def list_repositories (entries : List IndexEntry) : List Op :=
  if entries = [] then [Op.reportNoRepos] else entries.map Op.printEntry

/-- Concatenate path segments with `/` (used to quantify over segment
counts). -/
def joinSlash : List Str → Str
  | [] => []
  | [s] => s
  | s :: ss => s ++ '/' :: joinSlash ss

/-- Is this trace element a cloned/skipped summary report? -/
def isSummary : Op → Bool
  | .reportSummary _ _ => true
  | _ => false


/-- A sample tracked record (used by concrete witnesses). -/
def entA : IndexEntry :=
  { url := "https://github.com/acme/a.git".toList
  , local_path := "/r/github.com/acme/a".toList
  , host := "github.com".toList, org := "acme".toList, repo := "a".toList
  , branch := "main".toList, last_hash := "aaaa".toList, last_pull := "t0".toList }

/-- A record with the same `url` as `entA` but refreshed metadata. -/
def entA2 : IndexEntry :=
  { entA with branch := "dev".toList, last_hash := "bbbb".toList }

/-- A second sample record with a distinct `url`. -/
def entB : IndexEntry :=
  { url := "https://github.com/acme/b.git".toList
  , local_path := "/r/github.com/acme/b".toList
  , host := "github.com".toList, org := "acme".toList, repo := "b".toList
  , branch := "main".toList, last_hash := "cccc".toList, last_pull := "t0".toList }

/-- A third sample record with a `url` absent from `[entA, entB]`. -/
def entC : IndexEntry :=
  { url := "https://github.com/acme/c.git".toList
  , local_path := "/r/github.com/acme/c".toList
  , host := "github.com".toList, org := "acme".toList, repo := "c".toList
  , branch := "main".toList, last_hash := "dddd".toList, last_pull := "t1".toList }


/-- A sample remote descriptor for the pagination scenario. -/
def pageDescriptor : RepoDescriptor :=
  { name := "r".toList, clone_url := "https://github.com/acme/r.git".toList
  , ssh_url := "git@github.com:acme/r.git".toList, default_branch := "main".toList
  , description := [], priv := false, fork := false }

/-- A remote returning pages of 100, 100 and 37 descriptors, then empty. -/
def pagesEnv : FetchEnv :=
  ⟨fun page =>
    if page = 1 then .ok (List.replicate 100 pageDescriptor)
    else if page = 2 then .ok (List.replicate 100 pageDescriptor)
    else if page = 3 then .ok (List.replicate 37 pageDescriptor)
    else .ok []⟩


/-- An environment in which no local path exists (every pull would be
skipped); clones and pulls fail, `get_git_info` fails. -/
def envMissing : SysEnv :=
  ⟨fun _ => false, fun _ _ => false, fun _ => none, fun _ => false, "t".toList⟩


/-- Is this trace element a "Filtered out N forks" report? -/
def isFilteredReport : Op → Bool
  | .reportFiltered _ => true
  | _ => false

/-- Is this trace element a `git clone` invocation? -/
def isGitClone : Op → Bool
  | .gitClone _ _ _ => true
  | _ => false

/-- Sample descriptor `a` (not a fork). -/
def descA : RepoDescriptor :=
  { name := "a".toList, clone_url := "https://github.com/acme/a.git".toList
  , ssh_url := "git@github.com:acme/a.git".toList, default_branch := "main".toList
  , description := [], priv := false, fork := false }

/-- Sample descriptor `b` (not a fork). -/
def descB : RepoDescriptor :=
  { name := "b".toList, clone_url := "https://github.com/acme/b.git".toList
  , ssh_url := "git@github.com:acme/b.git".toList, default_branch := "main".toList
  , description := [], priv := false, fork := false }

/-- Sample descriptor `f`, a fork. -/
def descF : RepoDescriptor :=
  { name := "f".toList, clone_url := "https://github.com/acme/f.git".toList
  , ssh_url := "git@github.com:acme/f.git".toList, default_branch := "main".toList
  , description := [], priv := false, fork := true }

/-- The local path `clone_repository` resolves for descriptor `a` under `/r`. -/
def pathA : Str := "/r/github.com/acme/a".toList

/-- The local path `clone_repository` resolves for descriptor `b` under `/r`. -/
def pathB : Str := "/r/github.com/acme/b".toList

/-- An environment in which exactly `pathA` already exists on disk (so
cloning `a` is a skip) and every `git clone` invocation fails (so cloning
`b` is a hard per-repository failure). -/
def envSkipFail : SysEnv :=
  ⟨fun p => decide (p = pathA), fun _ _ => false, fun _ => none, fun _ => false,
   "t".toList⟩

/-- A remote with one page holding descriptors `a` and `b`. -/
def fenvAB : FetchEnv :=
  ⟨fun page => if page = 1 then .ok [descA, descB] else .ok []⟩

/-- A remote with no repositories at all. -/
def fenvEmpty : FetchEnv := ⟨fun _ => .ok []⟩

/-- A remote on which both endpoints report not-found. -/
def fenvNotFound : FetchEnv := ⟨fun _ => .notFound⟩

/-- The bulk-clone run over `envSkipFail`/`fenvAB`: one skip (`a`) and one
hard failure (`b`). -/
def c2run : Option (Nat × List IndexEntry × List Op) :=
  clone_org_user_repos envSkipFail fenvAB ("/r".toList) []
    ("https://github.com/acme".toList) none false 5


-- THEOREMS-BELOW

theorem strStarts_append (p s : Str) : strStarts (p ++ s) p = true := by
  induction p with
  | nil => cases s <;> rfl
  | cons c cs ih => simp [strStarts, ih]

theorem strStarts_nil (s : Str) : strStarts s [] = true := by
  cases s <;> rfl

theorem strStarts_iff (s p : Str) : strStarts s p = true ↔ p <+: s := by
  induction p generalizing s with
  | nil => exact iff_of_true (strStarts_nil s) List.nil_prefix
  | cons d ds ih =>
    cases s with
    | nil => simp [strStarts]
    | cons c cs =>
      simp only [strStarts, Bool.and_eq_true, decide_eq_true_eq, ih, List.cons_prefix_cons]
      exact and_congr_left fun _ => eq_comm

theorem strEnds_iff (s p : Str) : strEnds s p = true ↔ p <:+ s := by
  rw [strEnds, strStarts_iff, List.reverse_prefix]

theorem strEnds_append (a p : Str) : strEnds (a ++ p) p = true := by
  rw [strEnds_iff]; exact ⟨a, rfl⟩

theorem pySplit_ne_nil (c : Char) (s : Str) : pySplit c s ≠ [] := by
  induction s with
  | nil => simp [pySplit]
  | cons d ds ih =>
    rw [pySplit]
    split
    · simp
    · cases h : pySplit c ds with
      | nil => simp
      | cons g gs => simp

theorem pySplit_no_occ (c : Char) (s : Str) (h : c ∉ s) : pySplit c s = [s] := by
  induction s with
  | nil => rfl
  | cons d ds ih =>
    rw [pySplit]
    have hd : ¬ d = c := by rintro rfl; exact h (List.mem_cons_self _ _)
    rw [if_neg hd, ih (fun hm => h (List.mem_cons_of_mem _ hm))]

theorem pySplit_append (c : Char) (a b : Str) (h : c ∉ a) :
    pySplit c (a ++ c :: b) = a :: pySplit c b := by
  induction a with
  | nil => simp [pySplit]
  | cons d ds ih =>
    have hd : ¬ d = c := by rintro rfl; exact h (List.mem_cons_self _ _)
    have ih' := ih (fun hm => h (List.mem_cons_of_mem _ hm))
    simp only [List.cons_append, pySplit, if_neg hd]
    rw [show pySplit c (List.append ds (c :: b)) = ds :: pySplit c b from ih']

theorem pySplit_length (c : Char) (s : Str) :
    (pySplit c s).length = s.count c + 1 := by
  induction s with
  | nil => rfl
  | cons d ds ih =>
    rw [pySplit]
    by_cases hd : d = c
    · subst hd
      simp [List.count_cons, ih]
    · rw [if_neg hd]
      cases h : pySplit c ds with
      | nil => exact absurd h (pySplit_ne_nil c ds)
      | cons g gs =>
        have := ih
        rw [h] at this
        simp only [List.length_cons] at this ⊢
        rw [List.count_cons]
        simp [hd, ← this]

theorem splitFirst_append (c : Char) (a b : Str) (h : c ∉ a) :
    splitFirst c (a ++ c :: b) = some (a, b) := by
  induction a with
  | nil => simp [splitFirst]
  | cons d ds ih =>
    have hd : ¬ d = c := by rintro rfl; exact h (List.mem_cons_self _ _)
    have ih' := ih (fun hm => h (List.mem_cons_of_mem _ hm))
    simp [splitFirst, if_neg hd, ih']

theorem dropWhile_eq_of_head (c : Char) (s : Str)
    (h : ∀ hd, s.head? = some hd → hd ≠ c) : s.dropWhile (· = c) = s := by
  cases s with
  | nil => rfl
  | cons d ds =>
    have : ¬ d = c := h d rfl
    simp [List.dropWhile_cons, this]

theorem stripChar_eq_self (c : Char) (s : Str)
    (h1 : ∀ hd, s.head? = some hd → hd ≠ c)
    (h2 : ∀ lst, s.getLast? = some lst → lst ≠ c) : stripChar c s = s := by
  rw [stripChar, dropWhile_eq_of_head c s h1, dropWhile_eq_of_head, List.reverse_reverse]
  intro hd hh
  rw [List.head?_reverse] at hh
  exact h2 hd hh

theorem stripChar_cons (c : Char) (s : Str) : stripChar c (c :: s) = stripChar c s := by
  rw [stripChar, stripChar, List.dropWhile_cons]
  simp

theorem takeWhile_bne_append (c : Char) (a b : Str) (h : c ∉ a) :
    (a ++ c :: b).takeWhile (· != c) = a := by
  induction a with
  | nil => simp [List.takeWhile_cons]
  | cons d ds ih =>
    have hd : ¬ d = c := by rintro rfl; exact h (List.mem_cons_self _ _)
    have ih' := ih (fun hm => h (List.mem_cons_of_mem _ hm))
    simp [List.takeWhile_cons, hd, ih']

theorem dropWhile_bne_append (c : Char) (a b : Str) (h : c ∉ a) :
    (a ++ c :: b).dropWhile (· != c) = c :: b := by
  induction a with
  | nil => simp [List.dropWhile_cons]
  | cons d ds ih =>
    have hd : ¬ d = c := by rintro rfl; exact h (List.mem_cons_self _ _)
    have ih' := ih (fun hm => h (List.mem_cons_of_mem _ hm))
    simp [List.dropWhile_cons, hd, ih']

theorem takeWhile_bne_no_occ (c : Char) (s : Str) (h : c ∉ s) :
    s.takeWhile (· != c) = s := by
  induction s with
  | nil => rfl
  | cons d ds ih =>
    have hd : ¬ d = c := by rintro rfl; exact h (List.mem_cons_self _ _)
    have ih' := ih (fun hm => h (List.mem_cons_of_mem _ hm))
    simp [List.takeWhile_cons, hd, ih']

theorem dropWhile_bne_no_occ (c : Char) (s : Str) (h : c ∉ s) :
    s.dropWhile (· != c) = [] := by
  induction s with
  | nil => rfl
  | cons d ds ih =>
    have hd : ¬ d = c := by rintro rfl; exact h (List.mem_cons_self _ _)
    have ih' := ih (fun hm => h (List.mem_cons_of_mem _ hm))
    simp [List.dropWhile_cons, hd, ih']

theorem strEnds_append_mid (c : Char) (a r pat : Str) (hc : c ∉ pat)
    (hr : strEnds r pat = false) : strEnds (a ++ c :: r) pat = false := by
  rw [Bool.eq_false_iff]
  intro h
  rw [strEnds_iff] at h
  have h2 : (c :: r) <:+ (a ++ c :: r) := ⟨a, rfl⟩
  have h1' : pat.reverse <+: (a ++ c :: r).reverse := List.reverse_prefix.mpr h
  have h2' : (c :: r).reverse <+: (a ++ c :: r).reverse := List.reverse_prefix.mpr h2
  rcases List.prefix_or_prefix_of_prefix h1' h2' with hp | hp
  · have hs : pat <:+ c :: r := List.reverse_prefix.mp hp
    rcases List.suffix_cons_iff.mp hs with heq | hsuf
    · exact hc (heq ▸ List.mem_cons_self _ _)
    · rw [Bool.eq_false_iff] at hr
      exact hr (strEnds_iff r pat |>.mpr hsuf)
  · have hs : c :: r <:+ pat := List.reverse_prefix.mp hp
    exact hc (hs.subset (List.mem_cons_self _ _))

theorem dropGit_append (x : Str) : dropGit (x ++ gitSuf) = x := by
  rw [dropGit, if_pos (strEnds_append x gitSuf)]
  have hlen : (x ++ gitSuf).length - 4 = x.length := by simp [gitSuf]
  rw [hlen]
  exact List.take_left x gitSuf

theorem dropGit_no (s : Str) (h : strEnds s gitSuf = false) : dropGit s = s := by
  simp [dropGit, h]

theorem dropGit_count (c : Char) (s : Str) (hc : c ∉ gitSuf) :
    (dropGit s).count c = s.count c := by
  cases hEnd : strEnds s gitSuf with
  | false => rw [dropGit_no s hEnd]
  | true =>
    obtain ⟨u, hu⟩ := (strEnds_iff s gitSuf).mp hEnd
    subst hu
    rw [dropGit_append]
    rw [List.count_append, List.count_eq_zero.mpr hc]
    simp

example : parse_git_url ("https://example.com/acme/widget.git".toList) =
    .ok ("example.com".toList, "acme".toList, "widget".toList) := by rfl

example : parse_git_url ("git@host.example:team/proj.git".toList) =
    .ok ("host.example".toList, "team".toList, "proj".toList) := by rfl

example : parse_git_url ("alice@host.example:team/proj.git".toList) =
    .ok ([], "alice@host.example:team".toList, "proj".toList) := by rfl

example : is_org_user_url ("https://github.com/acme".toList) = true := by decide

example : is_org_user_url ("https://github.com/acme/widget".toList) = false := by decide

example : is_org_user_url ("https://github.com".toList) = false := by decide

example : parse_org_user_url ("https://github.com/acme".toList) =
    .ok ("github.com".toList, "acme".toList) := by rfl

theorem scheme_no_colon (s : Str) (hs : isValidScheme s = true) : ':' ∉ s := by
  cases s with
  | nil => simp [isValidScheme] at hs
  | cons c cs =>
    simp only [isValidScheme, Bool.and_eq_true] at hs
    obtain ⟨hc, hall⟩ := hs
    intro hmem
    rcases List.mem_cons.mp hmem with heq | hmem'
    · rw [← heq] at hc
      exact absurd hc (by decide)
    · rw [List.all_eq_true] at hall
      exact absurd (hall _ hmem') (by decide)

theorem scheme_not_gitAt (scheme r : Str) (hs : isValidScheme scheme = true) :
    strStarts (scheme ++ ':' :: r) gitAt = false := by
  rw [Bool.eq_false_iff]
  intro h
  rw [strStarts_iff] at h
  rcases scheme with _ | ⟨a, _ | ⟨b, _ | ⟨c, _ | ⟨d, xs⟩⟩⟩⟩
  · simp [isValidScheme] at hs
  · simp only [List.cons_append, List.nil_append, gitAt] at h
    obtain ⟨-, h2⟩ := List.cons_prefix_cons.mp h
    obtain ⟨h3, -⟩ := List.cons_prefix_cons.mp h2
    exact absurd h3 (by decide)
  · simp only [List.cons_append, List.nil_append, gitAt] at h
    obtain ⟨-, h2⟩ := List.cons_prefix_cons.mp h
    obtain ⟨-, h3⟩ := List.cons_prefix_cons.mp h2
    obtain ⟨h4, -⟩ := List.cons_prefix_cons.mp h3
    exact absurd h4 (by decide)
  · simp only [List.cons_append, List.nil_append, gitAt] at h
    obtain ⟨-, h2⟩ := List.cons_prefix_cons.mp h
    obtain ⟨-, h3⟩ := List.cons_prefix_cons.mp h2
    obtain ⟨-, h4⟩ := List.cons_prefix_cons.mp h3
    obtain ⟨h5, -⟩ := List.cons_prefix_cons.mp h4
    exact absurd h5 (by decide)
  · simp only [List.cons_append, gitAt] at h
    obtain ⟨-, h2⟩ := List.cons_prefix_cons.mp h
    obtain ⟨-, h3⟩ := List.cons_prefix_cons.mp h2
    obtain ⟨-, h4⟩ := List.cons_prefix_cons.mp h3
    obtain ⟨h5, -⟩ := List.cons_prefix_cons.mp h4
    simp only [isValidScheme, Bool.and_eq_true, List.all_cons] at hs
    obtain ⟨-, hall⟩ := hs
    rw [← h5] at hall
    simp [isSchemeChar] at hall

theorem stripChar_no_occ (c : Char) (s : Str) (h : c ∉ s) : stripChar c s = s := by
  apply stripChar_eq_self
  · intro hd hh heq
    exact h (heq ▸ List.mem_of_mem_head? (Option.mem_def.mpr hh))
  · intro lst hl heq
    exact h (heq ▸ List.mem_of_getLast?_eq_some hl)

theorem stripChar_sep (c : Char) (a b : Str) (ha : c ∉ a) (hb : c ∉ b)
    (hane : a ≠ []) (hbne : b ≠ []) : stripChar c (a ++ c :: b) = a ++ c :: b := by
  apply stripChar_eq_self
  · intro hd hh heq
    cases a with
    | nil => exact hane rfl
    | cons x xs =>
      rw [List.cons_append, List.head?_cons] at hh
      injection hh with hx
      have hxc : x = c := hx.trans heq
      exact ha (by rw [← hxc]; exact List.mem_cons_self _ _)
  · intro lst hl heq
    have hcb : (a ++ c :: b).getLast? = b.getLast? := by
      rw [List.getLast?_append, show c :: b = [c] ++ b from rfl, List.getLast?_append]
      cases hby : b.getLast? with
      | none => exact absurd (List.getLast?_eq_none_iff.mp hby) hbne
      | some y => rfl
    rw [hcb] at hl
    exact hb (heq ▸ List.mem_of_getLast?_eq_some hl)

theorem strEnds_not_mem (c : Char) (s : Str) (h : c ∉ s) : strEnds s [c] = false := by
  rw [Bool.eq_false_iff]
  intro hE
  exact h (((strEnds_iff s [c]).mp hE).subset (List.mem_cons_self _ _))

theorem pyUrlparse_std (scheme host rest : Str) (hs : isValidScheme scheme = true)
    (hh : '/' ∉ host) :
    pyUrlparse (scheme ++ ':' :: '/' :: '/' :: (host ++ '/' :: rest)) = (host, '/' :: rest) := by
  have hc : ':' ∉ scheme := scheme_no_colon scheme hs
  have h1 := splitFirst_append ':' scheme ('/' :: '/' :: (host ++ '/' :: rest)) hc
  have h2 : strStarts ('/' :: '/' :: (host ++ '/' :: rest)) ['/', '/'] = true := by
    simp [strStarts, strStarts_nil]
  simp only [pyUrlparse, h1, hs, if_true, h2, List.drop_succ_cons, List.drop_zero,
    takeWhile_bne_append '/' host rest hh, dropWhile_bne_append '/' host rest hh]

theorem pyUrlparse_nopath (scheme host : Str) (hs : isValidScheme scheme = true)
    (hh : '/' ∉ host) :
    pyUrlparse (scheme ++ ':' :: '/' :: '/' :: host) = (host, []) := by
  have hc : ':' ∉ scheme := scheme_no_colon scheme hs
  have h1 := splitFirst_append ':' scheme ('/' :: '/' :: host) hc
  have h2 : strStarts ('/' :: '/' :: host) ['/', '/'] = true := by
    simp [strStarts, strStarts_nil]
  simp only [pyUrlparse, h1, hs, if_true, h2, List.drop_succ_cons, List.drop_zero,
    takeWhile_bne_no_occ '/' host hh, dropWhile_bne_no_occ '/' host hh]

theorem strEnds_single_getLast (c : Char) (s : Str) (y : Char)
    (hy : s.getLast? = some y) (hne : y ≠ c) : strEnds s [c] = false := by
  rw [Bool.eq_false_iff]
  intro hE
  obtain ⟨u, hu⟩ := (strEnds_iff s [c]).mp hE
  rw [← hu, List.getLast?_append] at hy
  exact hne (by injection hy with h; exact h.symm)

theorem strEnds_sep_slash (a b : Str) (hb : '/' ∉ b) (hbne : b ≠ []) :
    strEnds (a ++ '/' :: b) ['/'] = false := by
  cases hby : b.getLast? with
  | none => exact absurd (List.getLast?_eq_none_iff.mp hby) hbne
  | some y =>
    have hyb : y ∈ b := List.mem_of_getLast?_eq_some hby
    have hyne : y ≠ '/' := fun he => hb (he ▸ hyb)
    apply strEnds_single_getLast '/' _ y _ hyne
    rw [List.getLast?_append, show '/' :: b = ['/'] ++ b from rfl, List.getLast?_append, hby]
    rfl

/-- Claim C8: for every URL whose path has exactly one non-empty segment,
`is_org_user_url` returns true; for every URL whose path has two segments it
returns false; for every URL with an empty path (with or without a trailing
slash) it returns false. -/
theorem claim_C8_is_org_user_url :
    (∀ scheme host seg : Str, isValidScheme scheme = true → '/' ∉ host →
        seg ≠ [] → '/' ∉ seg →
        is_org_user_url (scheme ++ ':' :: '/' :: '/' :: (host ++ '/' :: seg)) = true)
  ∧ (∀ scheme host a b : Str, isValidScheme scheme = true → '/' ∉ host →
        a ≠ [] → '/' ∉ a → b ≠ [] → '/' ∉ b →
        is_org_user_url
          (scheme ++ ':' :: '/' :: '/' :: (host ++ '/' :: (a ++ '/' :: b))) = false)
  ∧ (∀ scheme host : Str, isValidScheme scheme = true → '/' ∉ host →
        is_org_user_url (scheme ++ ':' :: '/' :: '/' :: host) = false)
  ∧ (∀ scheme host : Str, isValidScheme scheme = true → '/' ∉ host →
        is_org_user_url (scheme ++ ':' :: '/' :: '/' :: (host ++ ['/'])) = false) := by
  refine ⟨?_, ?_, ?_, ?_⟩
  · intro scheme host seg hs hh hne hseg
    have hp := pyUrlparse_std scheme host seg hs hh
    simp only [is_org_user_url, hp, stripChar_cons, stripChar_no_occ '/' seg hseg,
      strEnds_not_mem '/' seg hseg, Bool.false_eq_true, if_false,
      pySplit_no_occ '/' seg hseg]
    simp [List.isEmpty_iff, hne]
  · intro scheme host a b hs hh hane ha hbne hb
    have hp := pyUrlparse_std scheme host (a ++ '/' :: b) hs hh
    simp only [is_org_user_url, hp, stripChar_cons,
      stripChar_sep '/' a b ha hb hane hbne,
      strEnds_sep_slash a b hb hbne, Bool.false_eq_true, if_false,
      pySplit_append '/' a b ha, pySplit_no_occ '/' b hb]
  · intro scheme host hs hh
    have hp := pyUrlparse_nopath scheme host hs hh
    simp only [is_org_user_url, hp]
    decide
  · intro scheme host hs hh
    have hp := pyUrlparse_std scheme host [] hs hh
    simp only [is_org_user_url, hp, stripChar_cons]
    decide

theorem claim_C8_witness :
    is_org_user_url ("https://github.com/acme".toList) = true
      ∧ is_org_user_url ("https://github.com/acme/widget".toList) = false
      ∧ is_org_user_url ("https://github.com".toList) = false
      ∧ is_org_user_url ("https://github.com/".toList) = false := by
  refine ⟨?_, ?_, ?_, ?_⟩
  · exact claim_C8_is_org_user_url.1 ("https".toList) ("github.com".toList)
      ("acme".toList) (by decide) (by decide) (by decide) (by decide)
  · exact claim_C8_is_org_user_url.2.1 ("https".toList) ("github.com".toList)
      ("acme".toList) ("widget".toList) (by decide) (by decide) (by decide)
      (by decide) (by decide) (by decide)
  · exact claim_C8_is_org_user_url.2.2.1 ("https".toList) ("github.com".toList)
      (by decide) (by decide)
  · exact claim_C8_is_org_user_url.2.2.2 ("https".toList) ("github.com".toList)
      (by decide) (by decide)

theorem pySplit_joinSlash (segs : List Str) (h : ∀ s ∈ segs, '/' ∉ s)
    (hne : segs ≠ []) : pySplit '/' (joinSlash segs) = segs := by
  induction segs with
  | nil => exact absurd rfl hne
  | cons s ss ih =>
    cases ss with
    | nil => exact pySplit_no_occ '/' s (h s (List.mem_cons_self _ _))
    | cons s2 ss2 =>
      rw [show joinSlash (s :: s2 :: ss2) = s ++ '/' :: joinSlash (s2 :: ss2) from rfl]
      rw [pySplit_append '/' s _ (h s (List.mem_cons_self _ _))]
      rw [ih (fun x hx => h x (List.mem_cons_of_mem _ hx)) (by simp)]

theorem joinSlash_not_mem (c : Char) (segs : List Str) (hc : c ≠ '/')
    (h : ∀ s ∈ segs, c ∉ s) : c ∉ joinSlash segs := by
  induction segs with
  | nil => simp [joinSlash]
  | cons s ss ih =>
    cases ss with
    | nil => exact h s (List.mem_cons_self _ _)
    | cons s2 ss2 =>
      rw [show joinSlash (s :: s2 :: ss2) = s ++ '/' :: joinSlash (s2 :: ss2) from rfl]
      intro hmem
      rcases List.mem_append.mp hmem with hin | hin
      · exact h s (List.mem_cons_self _ _) hin
      · rcases List.mem_cons.mp hin with heq | hin'
        · exact hc heq
        · exact ih (fun x hx => h x (List.mem_cons_of_mem _ hx)) hin'

theorem joinSlash_head (s : Str) (ss : List Str) (hs : s ≠ []) :
    (joinSlash (s :: ss)).head? = s.head? := by
  cases ss with
  | nil => rfl
  | cons s2 ss2 =>
    rw [show joinSlash (s :: s2 :: ss2) = s ++ '/' :: joinSlash (s2 :: ss2) from rfl]
    cases s with
    | nil => exact absurd rfl hs
    | cons x xs => rfl

theorem joinSlash_getLast (segs : List Str) (t : Str)
    (hlast : segs.getLast? = some t) (ht : t ≠ []) :
    (joinSlash segs).getLast? = t.getLast? := by
  induction segs with
  | nil => simp at hlast
  | cons s ss ih =>
    cases ss with
    | nil =>
      have hst : s = t := by simpa using hlast
      rw [hst]
      rfl
    | cons s2 ss2 =>
      have hlast' : (s2 :: ss2).getLast? = some t := by
        rw [List.getLast?_cons_cons] at hlast
        exact hlast
      rw [show joinSlash (s :: s2 :: ss2) = s ++ '/' :: joinSlash (s2 :: ss2) from rfl]
      rw [List.getLast?_append,
        show '/' :: joinSlash (s2 :: ss2) = ['/'] ++ joinSlash (s2 :: ss2) from rfl,
        List.getLast?_append, ih hlast']
      cases hty : t.getLast? with
      | none => exact absurd (List.getLast?_eq_none_iff.mp hty) ht
      | some y => rfl

theorem stripChar_joinSlash (segs : List Str)
    (h : ∀ s ∈ segs, s ≠ [] ∧ '/' ∉ s) (hne : segs ≠ []) :
    stripChar '/' (joinSlash segs) = joinSlash segs := by
  apply stripChar_eq_self
  · intro hd hh heq
    cases segs with
    | nil => exact hne rfl
    | cons s ss =>
      have hs := h s (List.mem_cons_self _ _)
      rw [joinSlash_head s ss hs.1] at hh
      exact hs.2 (heq ▸ List.mem_of_mem_head? (Option.mem_def.mpr hh))
  · intro lst hl heq
    cases hlt : segs.getLast? with
    | none => exact hne (List.getLast?_eq_none_iff.mp hlt)
    | some t =>
      have ht := h t (List.mem_of_getLast?_eq_some hlt)
      rw [joinSlash_getLast segs t hlt ht.1] at hl
      exact ht.2 (heq ▸ List.mem_of_getLast?_eq_some hl)

/-- Claim C5 (amended): for every valid two-segment URL-style address
`scheme://host/org/repo[.git]` and every SSH-style address beginning with the
literal marker `git@` — `git@host:org/repo[.git]` — `parse_git_url` recovers
exactly `(host, org, repo)` with the `.git` suffix stripped; for both address
forms any other segment count fails with a ValueError; and resolving the
parsed components yields `root/host/org/repo` (`get_local_path`).  (The
original claim quantified over arbitrary `user@host:...` SSH URLs; the code
treats only `git@...` as SSH — see the counterexample.) -/
theorem claim_C5_parse_roundtrip :
    (∀ scheme host org repo : Str, isValidScheme scheme = true → '/' ∉ host →
        org ≠ [] → '/' ∉ org → repo ≠ [] → '/' ∉ repo → strEnds repo gitSuf = false →
        parse_git_url (scheme ++ ':' :: '/' :: '/' :: (host ++ '/' :: (org ++ '/' :: repo)))
          = .ok (host, org, repo))
  ∧ (∀ scheme host org repo : Str, isValidScheme scheme = true → '/' ∉ host →
        org ≠ [] → '/' ∉ org → '/' ∉ repo →
        parse_git_url
            (scheme ++ ':' :: '/' :: '/' :: (host ++ '/' :: (org ++ '/' :: (repo ++ gitSuf))))
          = .ok (host, org, repo))
  ∧ (∀ host org repo : Str, '@' ∉ host → ':' ∉ host → ':' ∉ org → '/' ∉ org →
        ':' ∉ repo → '/' ∉ repo → strEnds repo gitSuf = false →
        parse_git_url (gitAt ++ host ++ ':' :: (org ++ '/' :: repo)) = .ok (host, org, repo))
  ∧ (∀ host org repo : Str, '@' ∉ host → ':' ∉ host → ':' ∉ org → '/' ∉ org →
        ':' ∉ repo → '/' ∉ repo →
        parse_git_url (gitAt ++ host ++ ':' :: (org ++ '/' :: (repo ++ gitSuf)))
          = .ok (host, org, repo))
  ∧ (∀ (host : Str) (segs : List Str), '@' ∉ host → ':' ∉ host →
        (∀ s ∈ segs, s ≠ [] ∧ '/' ∉ s ∧ ':' ∉ s) → segs ≠ [] → segs.length ≠ 2 →
        ∃ e, parse_git_url (gitAt ++ host ++ ':' :: joinSlash segs) = .error e)
  ∧ (∀ (scheme host : Str) (segs : List Str), isValidScheme scheme = true → '/' ∉ host →
        (∀ s ∈ segs, s ≠ [] ∧ '/' ∉ s) → segs ≠ [] → segs.length ≠ 2 →
        ∃ e, parse_git_url (scheme ++ ':' :: '/' :: '/' :: (host ++ '/' :: joinSlash segs))
          = .error e)
  ∧ (∀ root host org repo : Str,
        get_local_path root host org repo
          = root ++ ['/'] ++ host ++ ['/'] ++ org ++ ['/'] ++ repo) := by
  refine ⟨?_, ?_, ?_, ?_, ?_, ?_, ?_⟩
  · intro scheme host org repo hs hh horgne horg hrepne hrep hgit
    have hstart := scheme_not_gitAt scheme ('/' :: '/' :: (host ++ '/' :: (org ++ '/' :: repo))) hs
    have hp := pyUrlparse_std scheme host (org ++ '/' :: repo) hs hh
    simp only [parse_git_url, hstart, Bool.false_eq_true, if_false, hp,
      stripChar_cons, stripChar_sep '/' org repo horg hrep horgne hrepne,
      dropGit_no _ (strEnds_append_mid '/' org repo gitSuf (by decide) hgit),
      pySplit_append '/' org repo horg, pySplit_no_occ '/' repo hrep]
  · intro scheme host org repo hs hh horgne horg hrep
    have hstart := scheme_not_gitAt scheme
      ('/' :: '/' :: (host ++ '/' :: (org ++ '/' :: (repo ++ gitSuf)))) hs
    have hp := pyUrlparse_std scheme host (org ++ '/' :: (repo ++ gitSuf)) hs hh
    have hbne : repo ++ gitSuf ≠ [] := by simp [gitSuf]
    have hb : '/' ∉ repo ++ gitSuf := by
      intro hmem
      rcases List.mem_append.mp hmem with hin | hin
      · exact hrep hin
      · exact absurd hin (by decide)
    have hassoc : org ++ '/' :: (repo ++ gitSuf) = (org ++ '/' :: repo) ++ gitSuf := by
      simp
    simp only [parse_git_url, hstart, Bool.false_eq_true, if_false, hp,
      stripChar_cons, stripChar_sep '/' org (repo ++ gitSuf) horg hb horgne hbne]
    rw [hassoc, dropGit_append,
      pySplit_append '/' org repo horg, pySplit_no_occ '/' repo hrep]
  · intro host org repo hAt hColon hcorg horg hcrep hrep hgit
    have hstart : strStarts ((gitAt ++ host) ++ ':' :: (org ++ '/' :: repo)) gitAt = true := by
      rw [List.append_assoc]
      exact strStarts_append gitAt _
    have hcolon0 : ':' ∉ gitAt ++ host := by
      intro hmem
      rcases List.mem_append.mp hmem with hin | hin
      · exact absurd hin (by decide)
      · exact hColon hin
    have hcolon1 : ':' ∉ org ++ '/' :: repo := by
      intro hmem
      rcases List.mem_append.mp hmem with hin | hin
      · exact hcorg hin
      · rcases List.mem_cons.mp hin with heq | hin'
        · exact absurd heq (by decide)
        · exact hcrep hin'
    have hsplit : pySplit ':' ((gitAt ++ host) ++ ':' :: (org ++ '/' :: repo))
        = [gitAt ++ host, org ++ '/' :: repo] := by
      rw [pySplit_append ':' (gitAt ++ host) _ hcolon0, pySplit_no_occ ':' _ hcolon1]
    have hat : pySplit '@' (gitAt ++ host) = [['g', 'i', 't'], host] := by
      rw [show gitAt ++ host = ['g', 'i', 't'] ++ '@' :: host from rfl,
        pySplit_append '@' ['g', 'i', 't'] host (by decide),
        pySplit_no_occ '@' host hAt]
    simp only [parse_git_url, hstart, if_true, hsplit, hat,
      dropGit_no _ (strEnds_append_mid '/' org repo gitSuf (by decide) hgit),
      pySplit_append '/' org repo horg, pySplit_no_occ '/' repo hrep]
  · intro host org repo hAt hColon hcorg horg hcrep hrep
    have hstart : strStarts ((gitAt ++ host) ++ ':' :: (org ++ '/' :: (repo ++ gitSuf))) gitAt = true := by
      rw [List.append_assoc]
      exact strStarts_append gitAt _
    have hcolon0 : ':' ∉ gitAt ++ host := by
      intro hmem
      rcases List.mem_append.mp hmem with hin | hin
      · exact absurd hin (by decide)
      · exact hColon hin
    have hcolon1 : ':' ∉ org ++ '/' :: (repo ++ gitSuf) := by
      intro hmem
      rcases List.mem_append.mp hmem with hin | hin
      · exact hcorg hin
      · rcases List.mem_cons.mp hin with heq | hin'
        · exact absurd heq (by decide)
        · rcases List.mem_append.mp hin' with hin2 | hin2
          · exact hcrep hin2
          · exact absurd hin2 (by decide)
    have hsplit : pySplit ':' ((gitAt ++ host) ++ ':' :: (org ++ '/' :: (repo ++ gitSuf)))
        = [gitAt ++ host, org ++ '/' :: (repo ++ gitSuf)] := by
      rw [pySplit_append ':' (gitAt ++ host) _ hcolon0, pySplit_no_occ ':' _ hcolon1]
    have hat : pySplit '@' (gitAt ++ host) = [['g', 'i', 't'], host] := by
      rw [show gitAt ++ host = ['g', 'i', 't'] ++ '@' :: host from rfl,
        pySplit_append '@' ['g', 'i', 't'] host (by decide),
        pySplit_no_occ '@' host hAt]
    have hassoc : org ++ '/' :: (repo ++ gitSuf) = (org ++ '/' :: repo) ++ gitSuf := by
      simp
    simp only [parse_git_url, hstart, if_true, hsplit, hat]
    rw [hassoc, dropGit_append,
      pySplit_append '/' org repo horg, pySplit_no_occ '/' repo hrep]
  · intro host segs hAt hColon hsegs hne hlen
    have hColonT : ':' ∉ joinSlash segs :=
      joinSlash_not_mem ':' segs (by decide) (fun s hs => (hsegs s hs).2.2)
    have hstart : strStarts ((gitAt ++ host) ++ ':' :: joinSlash segs) gitAt = true := by
      rw [List.append_assoc]
      exact strStarts_append gitAt _
    have hcolon0 : ':' ∉ gitAt ++ host := by
      intro hmem
      rcases List.mem_append.mp hmem with hin | hin
      · exact absurd hin (by decide)
      · exact hColon hin
    have hsplit : pySplit ':' ((gitAt ++ host) ++ ':' :: joinSlash segs)
        = [gitAt ++ host, joinSlash segs] := by
      rw [pySplit_append ':' (gitAt ++ host) _ hcolon0, pySplit_no_occ ':' _ hColonT]
    have hcount : (pySplit '/' (dropGit (joinSlash segs))).length = segs.length := by
      rw [pySplit_length, dropGit_count '/' _ (by decide), ← pySplit_length,
        pySplit_joinSlash segs (fun s hs => (hsegs s hs).2.1) hne]
    simp only [parse_git_url, hstart, if_true, hsplit]
    rcases hsp : pySplit '/' (dropGit (joinSlash segs)) with _ | ⟨x, _ | ⟨y, _ | ⟨z, zs⟩⟩⟩
    · exact ⟨_, rfl⟩
    · exact ⟨_, rfl⟩
    · rw [hsp] at hcount
      simp at hcount
      exact absurd hcount.symm hlen
    · exact ⟨_, rfl⟩
  · intro scheme host segs hs hh hsegs hne hlen
    have hstart := scheme_not_gitAt scheme ('/' :: '/' :: (host ++ '/' :: joinSlash segs)) hs
    have hp := pyUrlparse_std scheme host (joinSlash segs) hs hh
    have hcount : (pySplit '/' (dropGit (joinSlash segs))).length = segs.length := by
      rw [pySplit_length, dropGit_count '/' _ (by decide), ← pySplit_length,
        pySplit_joinSlash segs (fun s hs2 => (hsegs s hs2).2) hne]
    simp only [parse_git_url, hstart, Bool.false_eq_true, if_false, hp,
      stripChar_cons, stripChar_joinSlash segs hsegs hne]
    rcases hsp : pySplit '/' (dropGit (joinSlash segs)) with _ | ⟨x, _ | ⟨y, _ | ⟨z, zs⟩⟩⟩
    · exact ⟨_, rfl⟩
    · exact ⟨_, rfl⟩
    · rw [hsp] at hcount
      simp at hcount
      exact absurd hcount.symm hlen
    · exact ⟨_, rfl⟩
  · intro root host org repo
    simp [get_local_path]

/-- Claim C5 counterexample: `alice@host.example:team/proj.git` is a valid
SSH-style URL of the form `user@host:org/repo.git`, but `parse_git_url` does
not recover `(host.example, team, proj)` (nor fail): only URLs beginning with
the literal `git@` take the SSH branch, so this one falls through to
URL-style parsing and succeeds with host `""` and org
`alice@host.example:team`. -/
theorem claim_C5_counterexample :
    parse_git_url ("alice@host.example:team/proj.git".toList)
        = .ok ([], "alice@host.example:team".toList, "proj".toList)
      ∧ parse_git_url ("alice@host.example:team/proj.git".toList)
        ≠ .ok ("host.example".toList, "team".toList, "proj".toList) := by
  constructor
  · rfl
  · intro h
    rw [show parse_git_url ("alice@host.example:team/proj.git".toList)
        = .ok (([] : Str), "alice@host.example:team".toList, "proj".toList) from rfl] at h
    injection h with h'
    have h1 : ([] : Str) = "host.example".toList := congrArg Prod.fst h'
    exact absurd h1 (by decide)

theorem claim_C5_witness :
    parse_git_url ("https://example.com/acme/widget.git".toList)
        = .ok ("example.com".toList, "acme".toList, "widget".toList)
      ∧ parse_git_url ("git@host.example:team/proj.git".toList)
        = .ok ("host.example".toList, "team".toList, "proj".toList)
      ∧ (∃ e, parse_git_url ("https://example.com/onlyone".toList) = .error e)
      ∧ get_local_path ("/tmp/r".toList) ("example.com".toList) ("acme".toList)
          ("widget".toList)
        = "/tmp/r".toList ++ ['/'] ++ "example.com".toList ++ ['/'] ++ "acme".toList
            ++ ['/'] ++ "widget".toList := by
  refine ⟨?_, ?_, ?_, ?_⟩
  · exact claim_C5_parse_roundtrip.2.1 ("https".toList) ("example.com".toList)
      ("acme".toList) ("widget".toList) (by decide) (by decide) (by decide)
      (by decide) (by decide)
  · exact claim_C5_parse_roundtrip.2.2.2.1 ("host.example".toList) ("team".toList)
      ("proj".toList) (by decide) (by decide) (by decide) (by decide) (by decide)
      (by decide)
  · exact claim_C5_parse_roundtrip.2.2.2.2.2.1 ("https".toList) ("example.com".toList)
      ["onlyone".toList] (by decide) (by decide) (by decide) (by decide) (by decide)
  · exact claim_C5_parse_roundtrip.2.2.2.2.2.2 ("/tmp/r".toList) ("example.com".toList)
      ("acme".toList) ("widget".toList)

theorem add_to_index_fresh (entries : List IndexEntry) (e : IndexEntry)
    (h : ∀ x ∈ entries, x.url ≠ e.url) :
    add_to_index entries e = entries ++ [e] := by
  induction entries with
  | nil => rfl
  | cons x xs ih =>
    rw [add_to_index, if_neg (h x (List.mem_cons_self _ _)),
      ih (fun y hy => h y (List.mem_cons_of_mem _ hy))]
    rfl

theorem add_to_index_found (entries : List IndexEntry) (e : IndexEntry) (i : Nat)
    (hi : i < entries.length) (hu : urlsUnique entries)
    (hurl : (entries.get ⟨i, hi⟩).url = e.url) :
    add_to_index entries e = entries.set i e := by
  induction entries generalizing i with
  | nil => simp at hi
  | cons x xs ih =>
    cases i with
    | zero =>
      have hx : x.url = e.url := hurl
      rw [add_to_index, if_pos hx]
      rfl
    | succ j =>
      have hj : j < xs.length := Nat.lt_of_succ_lt_succ hi
      have hurl' : (xs.get ⟨j, hj⟩).url = e.url := hurl
      simp only [urlsUnique, List.map_cons, List.nodup_cons] at hu
      have hx : ¬ x.url = e.url := by
        intro hxe
        apply hu.1
        rw [hxe, ← hurl']
        exact List.mem_map_of_mem _ (xs.get_mem j hj)
      rw [add_to_index, if_neg hx, ih j hj hu.2 hurl']
      rfl

theorem add_to_index_map_url (entries : List IndexEntry) (e : IndexEntry)
    (hfound : ∃ x ∈ entries, x.url = e.url) :
    (add_to_index entries e).map (·.url) = entries.map (·.url) := by
  induction entries with
  | nil =>
    rcases hfound with ⟨x, hx, -⟩
    simp at hx
  | cons x xs ih =>
    by_cases hx : x.url = e.url
    · rw [add_to_index, if_pos hx]
      simp [hx]
    · rw [add_to_index, if_neg hx]
      rcases hfound with ⟨y, hy, hye⟩
      rcases List.mem_cons.mp hy with heq | hy'
      · exact absurd (heq ▸ hye) hx
      · simp [ih ⟨y, hy', hye⟩]

theorem add_to_index_unique (entries : List IndexEntry) (e : IndexEntry)
    (hu : urlsUnique entries) : urlsUnique (add_to_index entries e) := by
  by_cases hfound : ∃ x ∈ entries, x.url = e.url
  · rw [urlsUnique, add_to_index_map_url entries e hfound]
    exact hu
  · push_neg at hfound
    rw [urlsUnique, add_to_index_fresh entries e hfound, List.map_append,
      List.nodup_append]
    refine ⟨hu, List.nodup_singleton _, ?_⟩
    intro a ha hb
    rcases List.mem_map.mp ha with ⟨x, hx, hxa⟩
    simp only [List.map_cons, List.map_nil, List.mem_singleton] at hb
    exact hfound x hx (by rw [hxa, hb])

/-- Claim C1: upserting a record whose `url` is already present (in an index
with unique urls) replaces that record at the same position, leaving the
length and every other position unchanged; upserting a record with an absent
`url` appends it at the end; and upserting preserves uniqueness of the urls
(no duplicate is ever created). -/
theorem claim_C1_upsert :
    (∀ (entries : List IndexEntry) (e : IndexEntry) (i : Nat) (hi : i < entries.length),
        urlsUnique entries → (entries.get ⟨i, hi⟩).url = e.url →
        add_to_index entries e = entries.set i e
          ∧ (add_to_index entries e).length = entries.length
          ∧ (add_to_index entries e)[i]? = some e
          ∧ ∀ j : Nat, j ≠ i → (add_to_index entries e)[j]? = entries[j]?)
  ∧ (∀ (entries : List IndexEntry) (e : IndexEntry),
        (∀ x ∈ entries, x.url ≠ e.url) → add_to_index entries e = entries ++ [e])
  ∧ (∀ (entries : List IndexEntry) (e : IndexEntry),
        urlsUnique entries → urlsUnique (add_to_index entries e)) := by
  refine ⟨?_, add_to_index_fresh, add_to_index_unique⟩
  intro entries e i hi hu hurl
  have hset := add_to_index_found entries e i hi hu hurl
  refine ⟨hset, ?_, ?_, ?_⟩
  · rw [hset, List.length_set]
  · rw [hset]
    exact List.getElem?_set_self hi
  · intro j hj
    rw [hset]
    exact List.getElem?_set_ne (Ne.symm hj)

theorem claim_C1_upsert_witness :
    add_to_index [entA, entB] entA2 = [entA, entB].set 0 entA2
      ∧ add_to_index [entA, entB] entC = [entA, entB] ++ [entC]
      ∧ urlsUnique (add_to_index [entA, entB] entA2) :=
  ⟨(claim_C1_upsert.1 [entA, entB] entA2 0 (by decide) (by decide) (by decide)).1,
   claim_C1_upsert.2.1 [entA, entB] entC (by decide),
   claim_C1_upsert.2.2 [entA, entB] entA2 (by decide)⟩

theorem readIndexLines_malformed (ls : List IndexLine)
    (h : IndexLine.malformed ∈ ls) : readIndexLines ls = none := by
  induction ls with
  | nil => simp at h
  | cons l ls ih =>
    cases l with
    | malformed => rfl
    | blank =>
      rcases List.mem_cons.mp h with heq | h'
      · exact IndexLine.noConfusion heq
      · simp [readIndexLines, ih h']
    | entry e =>
      rcases List.mem_cons.mp h with heq | h'
      · exact IndexLine.noConfusion heq
      · simp [readIndexLines, ih h']

/-- Claim C3 (amended): a malformed line makes the read fail closed for the
whole file — the parse of the loop body raises (`none`) and every entry,
well-formed ones included, is discarded — but the exception is caught inside
`read_index`: an error message is printed and the empty list is returned, so
no I/O-level failure reaches the caller. -/
theorem claim_C3_amended (ls : List IndexLine) (h : IndexLine.malformed ∈ ls) :
    readIndexLines ls = none ∧ read_index (some ls) = [] := by
  refine ⟨readIndexLines_malformed ls h, ?_⟩
  simp [read_index, readIndexLines_malformed ls h]

/-- Claim C3 counterexample: reading a file with one well-formed record
followed by a malformed line returns the plain value `[]` — the very same
result as successfully reading an empty or a missing index file — so the
malformed line is not surfaced as an I/O-level failure of the read
operation. -/
theorem claim_C3_counterexample :
    read_index (some [IndexLine.entry entA, IndexLine.malformed]) = []
      ∧ read_index (some [IndexLine.entry entA, IndexLine.malformed])
          = read_index (some [])
      ∧ read_index (some [IndexLine.entry entA, IndexLine.malformed])
          = read_index none :=
  ⟨rfl, rfl, rfl⟩

theorem claim_C3_witness :
    readIndexLines [IndexLine.entry entA, IndexLine.malformed] = none
      ∧ read_index (some [IndexLine.entry entA, IndexLine.malformed]) = [] :=
  claim_C3_amended [IndexLine.entry entA, IndexLine.malformed] (by decide)

/-- Claim C9: when the index file does not exist (first run), `read_index`
returns the empty sequence — indistinguishable from an empty file — and the
clone, sync and list operations over that read behave exactly as over an
empty index. -/
theorem claim_C9_missing_index :
    read_index none = []
      ∧ read_index none = read_index (some [])
      ∧ (∀ env : SysEnv, sync_repositories env (read_index none)
            = sync_repositories env [])
      ∧ list_repositories (read_index none) = list_repositories []
      ∧ (∀ (env : SysEnv) (base url : Str) (br : Option Str),
          clone_repository env base (read_index none) url br
            = clone_repository env base [] url br) :=
  ⟨rfl, rfl, fun _ => rfl, rfl, fun _ _ _ _ => rfl⟩

/-- Claim C4: pagination starts at page 1 with a fixed page size and stops at
the first page that returns zero entries (first conjunct, for any
environment).  In the 100/100/37 scenario the loop performs exactly the
fetches of pages 1, 2, 3 and 4 — three productive fetches yielding 237
descriptors — and the 4th fetch, which returns empty, only terminates the
loop without contributing descriptors. -/
theorem claim_C4_pagination :
    (∀ (env : FetchEnv) (fuel page : Nat) (acc : List RepoDescriptor) (tr : List Nat),
        env.fetchPage page = PageResult.ok [] →
        fetchLoop env (fuel + 1) page acc tr = some (.ok acc, tr ++ [page]))
  ∧ (∃ repos : List RepoDescriptor,
        fetch_github_repos pagesEnv ("github.com".toList) ("acme".toList) 10
            = some (.ok repos, [1, 2, 3, 4])
          ∧ repos.length = 237)
  ∧ pagesEnv.fetchPage 4 = PageResult.ok [] := by
  refine ⟨?_, ⟨_, rfl, by decide⟩, rfl⟩
  intro env fuel page acc tr h
  simp [fetchLoop, h]

theorem claim_C4_pagination_witness :
    fetchLoop pagesEnv 1 4 [] [1, 2, 3] = some (.ok [], [1, 2, 3] ++ [4]) :=
  claim_C4_pagination.1 pagesEnv 0 4 [] [1, 2, 3] rfl

theorem syncEntry_ops (env : SysEnv) (e : IndexEntry) (o : Op)
    (ho : o ∈ (syncEntry env e).2) :
    o = Op.gitPull e.local_path ∨ o = Op.reportSyncError e.local_path
      ∨ o = Op.reportMissing e.local_path := by
  unfold syncEntry at ho
  split at ho
  · split at ho
    · split at ho
      · simp at ho
        exact Or.inl ho
      · simp at ho
        rcases ho with h | h
        · exact Or.inl h
        · exact Or.inr (Or.inl h)
    · simp at ho
      rcases ho with h | h
      · exact Or.inl h
      · exact Or.inr (Or.inl h)
  · simp at ho
    exact Or.inr (Or.inr ho)

theorem sync_repositories_ops (env : SysEnv) (entries : List IndexEntry)
    (hne : entries ≠ []) :
    (sync_repositories env entries).2
      = ((entries.map (syncEntry env)).map (·.2)).flatten
          ++ [Op.writeIndexOp (sync_repositories env entries).1] := by
  simp [sync_repositories, hne]

/-- Claim C7: for every index record whose `local_path` does not exist,
sync reports the missing path and performs no pull for that record (its
whole per-entry trace is the single report), leaves the record unchanged at
its position in the index that is written back, never clones anything, and
rewrites the index exactly once, at the end of the run. -/
theorem claim_C7_sync_missing (env : SysEnv) (entries : List IndexEntry) (i : Nat)
    (hi : i < entries.length)
    (h : env.pathExists ((entries.get ⟨i, hi⟩).local_path) = false) :
    syncEntry env (entries.get ⟨i, hi⟩)
        = (entries.get ⟨i, hi⟩, [Op.reportMissing (entries.get ⟨i, hi⟩).local_path])
      ∧ (sync_repositories env entries).1[i]? = some (entries.get ⟨i, hi⟩)
      ∧ (∀ u p b, Op.gitClone u p b ∉ (sync_repositories env entries).2)
      ∧ (∃ pre, (sync_repositories env entries).2
            = pre ++ [Op.writeIndexOp (sync_repositories env entries).1]
          ∧ ∀ l, Op.writeIndexOp l ∉ pre) := by
  have hne : entries ≠ [] := by
    intro he
    rw [he] at hi
    simp at hi
  have hstep : syncEntry env (entries.get ⟨i, hi⟩)
      = (entries.get ⟨i, hi⟩, [Op.reportMissing (entries.get ⟨i, hi⟩).local_path]) := by
    unfold syncEntry
    rw [h]
    simp
  refine ⟨hstep, ?_, ?_, ?_⟩
  · have h1 : (sync_repositories env entries).1
        = entries.map (fun e => (syncEntry env e).1) := by
      simp [sync_repositories, hne]
    rw [h1, List.getElem?_map, List.getElem?_eq_getElem hi]
    have h2 : (syncEntry env (entries.get ⟨i, hi⟩)).1 = entries.get ⟨i, hi⟩ := by
      rw [hstep]
    simpa using h2
  · intro u p b hmem
    rw [sync_repositories_ops env entries hne] at hmem
    rcases List.mem_append.mp hmem with hin | hin
    · rcases List.mem_flatten.mp hin with ⟨l, hl, hol⟩
      rcases List.mem_map.mp hl with ⟨pr, hpr, rfl⟩
      rcases List.mem_map.mp hpr with ⟨en, hen, rfl⟩
      rcases syncEntry_ops env en _ hol with h1 | h1 | h1 <;> exact Op.noConfusion h1
    · simp at hin
  · refine ⟨((entries.map (syncEntry env)).map (·.2)).flatten,
      sync_repositories_ops env entries hne, ?_⟩
    intro l hmem
    rcases List.mem_flatten.mp hmem with ⟨l2, hl2, hol⟩
    rcases List.mem_map.mp hl2 with ⟨pr, hpr, rfl⟩
    rcases List.mem_map.mp hpr with ⟨en, hen, rfl⟩
    rcases syncEntry_ops env en _ hol with h1 | h1 | h1 <;> exact Op.noConfusion h1

theorem claim_C7_sync_missing_witness :
    syncEntry envMissing entA = (entA, [Op.reportMissing entA.local_path])
      ∧ (sync_repositories envMissing [entA]).1[0]? = some entA
      ∧ (∀ u p b, Op.gitClone u p b ∉ (sync_repositories envMissing [entA]).2)
      ∧ (∃ pre, (sync_repositories envMissing [entA]).2
            = pre ++ [Op.writeIndexOp (sync_repositories envMissing [entA]).1]
          ∧ ∀ l, Op.writeIndexOp l ∉ pre) := by
  have h := claim_C7_sync_missing envMissing [entA] 0 (by decide) (by decide)
  exact h

theorem clone_repository_ops (env : SysEnv) (base : Str) (idx : List IndexEntry)
    (url : Str) (br : Option Str) (o : Op)
    (ho : o ∈ (clone_repository env base idx url br).2.2) :
    o = Op.reportCloneError ∨ (∃ p, o = Op.reportExists p)
      ∨ (∃ p, o = Op.mkdirParents p) ∨ (∃ p b, o = Op.gitClone url p b)
      ∨ (∃ l, o = Op.writeIndexOp l) := by
  unfold clone_repository at ho
  split at ho
  · simp at ho
    exact Or.inl ho
  · dsimp only at ho
    split at ho
    · simp at ho
      exact Or.inr (Or.inl ⟨_, ho⟩)
    · split at ho
      · split at ho
        · simp at ho
          rcases ho with h | h | h
          · exact Or.inr (Or.inr (Or.inl ⟨_, h⟩))
          · exact Or.inr (Or.inr (Or.inr (Or.inl ⟨_, _, h⟩)))
          · exact Or.inr (Or.inr (Or.inr (Or.inr ⟨_, h⟩)))
        · simp at ho
          rcases ho with h | h | h
          · exact Or.inr (Or.inr (Or.inl ⟨_, h⟩))
          · exact Or.inr (Or.inr (Or.inr (Or.inl ⟨_, _, h⟩)))
          · exact Or.inl h
      · simp at ho
        rcases ho with h | h | h
        · exact Or.inr (Or.inr (Or.inl ⟨_, h⟩))
        · exact Or.inr (Or.inr (Or.inr (Or.inl ⟨_, _, h⟩)))
        · exact Or.inl h

theorem clone_repository_fst (env : SysEnv) (base : Str) (idx : List IndexEntry)
    (url : Str) (br : Option Str) :
    (clone_repository env base idx url br).1 = cloneOutcome env base url br := by
  unfold cloneOutcome clone_repository
  rcases parse_git_url url with e | ⟨host, org, repo⟩
  · rfl
  · by_cases h1 : env.pathExists (get_local_path base host org repo) = true
    · simp [h1]
    · simp only [Bool.not_eq_true] at h1
      by_cases h2 : env.cloneOk url (get_local_path base host org repo) = true
      · rcases hg : env.gitInfo (get_local_path base host org repo) with _ | ⟨br2, hsh⟩ <;>
          simp [h1, h2, hg]
      · simp only [Bool.not_eq_true] at h2
        simp [h1, h2]

theorem count_true_add_count_false (l : List Bool) :
    l.count true + l.count false = l.length := by
  induction l with
  | nil => rfl
  | cons b bs ih =>
    cases b <;> simp [List.count_cons] <;> omega

theorem cloneLoop_counts (env : SysEnv) (base : Str) (branch : Option Str) :
    ∀ (repos : List RepoDescriptor) (idx : List IndexEntry),
      (cloneLoop env base branch repos idx).1
          = (repos.map (fun r => cloneOutcome env base r.clone_url branch)).count true
        ∧ (cloneLoop env base branch repos idx).2.1
          = (repos.map (fun r => cloneOutcome env base r.clone_url branch)).count false := by
  intro repos
  induction repos with
  | nil =>
    intro idx
    simp [cloneLoop]
  | cons r rs ih =>
    intro idx
    obtain ⟨ih1, ih2⟩ := ih (clone_repository env base idx r.clone_url branch).2.1
    have hfst := clone_repository_fst env base idx r.clone_url branch
    cases hres : cloneOutcome env base r.clone_url branch with
    | false =>
      have hcr : (clone_repository env base idx r.clone_url branch).1 = false := by
        rw [hfst, hres]
      simp [cloneLoop, hcr, ih1, ih2, List.count_cons, hres]
    | true =>
      have hcr : (clone_repository env base idx r.clone_url branch).1 = true := by
        rw [hfst, hres]
      simp [cloneLoop, hcr, ih1, ih2, List.count_cons, hres]

theorem cloneLoop_length (env : SysEnv) (base : Str) (branch : Option Str)
    (repos : List RepoDescriptor) (idx : List IndexEntry) :
    (cloneLoop env base branch repos idx).1
        + (cloneLoop env base branch repos idx).2.1 = repos.length := by
  obtain ⟨h1, h2⟩ := cloneLoop_counts env base branch repos idx
  rw [h1, h2, count_true_add_count_false, List.length_map]

theorem cloneLoop_ops_split (env : SysEnv) (base : Str) (branch : Option Str)
    (r : RepoDescriptor) (rs : List RepoDescriptor) (idx : List IndexEntry) :
    (cloneLoop env base branch (r :: rs) idx).2.2.2
      = (clone_repository env base idx r.clone_url branch).2.2
          ++ (cloneLoop env base branch rs
                (clone_repository env base idx r.clone_url branch).2.1).2.2.2 := by
  cases hres : (clone_repository env base idx r.clone_url branch).1 <;>
    simp [cloneLoop, hres]

theorem cloneLoop_ops (env : SysEnv) (base : Str) (branch : Option Str) :
    ∀ (repos : List RepoDescriptor) (idx : List IndexEntry) (o : Op),
      o ∈ (cloneLoop env base branch repos idx).2.2.2 →
      o = Op.reportCloneError ∨ (∃ p, o = Op.reportExists p)
        ∨ (∃ p, o = Op.mkdirParents p)
        ∨ (∃ u p b, o = Op.gitClone u p b ∧ u ∈ repos.map (·.clone_url))
        ∨ (∃ l, o = Op.writeIndexOp l) := by
  intro repos
  induction repos with
  | nil =>
    intro idx o ho
    simp [cloneLoop] at ho
  | cons r rs ih =>
    intro idx o ho
    rw [cloneLoop_ops_split] at ho
    rcases List.mem_append.mp ho with hin | hin
    · rcases clone_repository_ops env base idx r.clone_url branch o hin with
        h | h | h | h | h
      · exact Or.inl h
      · exact Or.inr (Or.inl h)
      · exact Or.inr (Or.inr (Or.inl h))
      · rcases h with ⟨p, b, he⟩
        exact Or.inr (Or.inr (Or.inr (Or.inl ⟨r.clone_url, p, b, he, by simp⟩)))
      · exact Or.inr (Or.inr (Or.inr (Or.inr h)))
    · rcases ih _ o hin with h | h | h | h | h
      · exact Or.inl h
      · exact Or.inr (Or.inl h)
      · exact Or.inr (Or.inr (Or.inl h))
      · rcases h with ⟨u, p, b, he, hu⟩
        refine Or.inr (Or.inr (Or.inr (Or.inl ⟨u, p, b, he, ?_⟩)))
        simp only [List.map_cons, List.mem_cons]
        exact Or.inr hu
      · exact Or.inr (Or.inr (Or.inr (Or.inr h)))

theorem filter_fork_length (repos : List RepoDescriptor) :
    (repos.filter (fun r => !r.fork)).length + (repos.filter (·.fork)).length
      = repos.length := by
  induction repos with
  | nil => rfl
  | cons r rs ih =>
    cases hr : r.fork <;> simp [List.filter_cons, hr] <;> omega

theorem bulkClonePhase_ops (env : SysEnv) (base : Str) (branch : Option Str)
    (incl : Bool) (idx : List IndexEntry) (repos : List RepoDescriptor)
    (hne : repos ≠ []) :
    (bulkClonePhase env base branch incl idx repos).2.2
      = (if (filterForks incl repos).length < repos.length
          then [Op.reportFiltered (repos.length - (filterForks incl repos).length)]
          else [])
        ++ (cloneLoop env base branch (filterForks incl repos) idx).2.2.2
        ++ [Op.reportSummary (cloneLoop env base branch (filterForks incl repos) idx).1
              (cloneLoop env base branch (filterForks incl repos) idx).2.1] := by
  simp [bulkClonePhase, hne]

/-- Claim C6: bulk clone with `include_forks = false` excludes exactly the
descriptors whose fork flag is set (and clones nothing it excluded — every
`git clone` in the trace targets the URL of a surviving non-fork
descriptor), reports the exact number excluded when any was, and with
`include_forks = true` excludes nothing and prints no filter report. -/
theorem claim_C6_fork_filter :
    (∀ repos : List RepoDescriptor,
        filterForks false repos = repos.filter (fun r => !r.fork))
  ∧ (∀ repos : List RepoDescriptor, filterForks true repos = repos)
  ∧ (∀ (repos : List RepoDescriptor) (d : RepoDescriptor),
        d.fork = true → d ∉ filterForks false repos)
  ∧ (∀ repos : List RepoDescriptor,
        (filterForks false repos).length + (repos.filter (·.fork)).length
          = repos.length)
  ∧ (∀ (env : SysEnv) (base : Str) (branch : Option Str)
        (idx : List IndexEntry) (repos : List RepoDescriptor), repos ≠ [] →
        (bulkClonePhase env base branch false idx repos).2.2.filter isFilteredReport
          = (if (repos.filter (·.fork)).length = 0 then []
             else [Op.reportFiltered ((repos.filter (·.fork)).length)]))
  ∧ (∀ (env : SysEnv) (base : Str) (branch : Option Str)
        (idx : List IndexEntry) (repos : List RepoDescriptor) (u p : Str)
        (b : Option Str),
        Op.gitClone u p b ∈ (bulkClonePhase env base branch false idx repos).2.2 →
        u ∈ (repos.filter (fun r => !r.fork)).map (·.clone_url))
  ∧ (∀ (env : SysEnv) (base : Str) (branch : Option Str)
        (idx : List IndexEntry) (repos : List RepoDescriptor) (u p : Str)
        (b : Option Str),
        Op.gitClone u p b ∈ (bulkClonePhase env base branch true idx repos).2.2 →
        u ∈ repos.map (·.clone_url)) := by
  have hfilterOps : ∀ (env : SysEnv) (base : Str) (branch : Option Str)
      (incl : Bool) (idx : List IndexEntry) (repos : List RepoDescriptor)
      (u p : Str) (b : Option Str),
      Op.gitClone u p b ∈ (bulkClonePhase env base branch incl idx repos).2.2 →
      u ∈ (filterForks incl repos).map (·.clone_url) := by
    intro env base branch incl idx repos u p b hmem
    by_cases hne : repos = []
    · subst hne
      simp [bulkClonePhase] at hmem
    · rw [bulkClonePhase_ops env base branch incl idx repos hne] at hmem
      rcases List.mem_append.mp hmem with hin | hin
      · rcases List.mem_append.mp hin with hin2 | hin2
        · split at hin2 <;> simp at hin2
        · rcases cloneLoop_ops env base branch (filterForks incl repos) idx _ hin2 with
            h | h | h | h | h
          · exact Op.noConfusion h
          · rcases h with ⟨q, h⟩
            exact Op.noConfusion h
          · rcases h with ⟨q, h⟩
            exact Op.noConfusion h
          · rcases h with ⟨u2, p2, b2, he, hu⟩
            injection he with h1 h2 h3
            rw [h1]
            exact hu
          · rcases h with ⟨l, h⟩
            exact Op.noConfusion h
      · simp at hin
  refine ⟨fun repos => rfl, fun repos => rfl, ?_, ?_, ?_, ?_, ?_⟩
  · intro repos d hf hmem
    have := (List.mem_filter.mp hmem).2
    simp [hf] at this
  · intro repos
    exact filter_fork_length repos
  · intro env base branch idx repos hne
    rw [bulkClonePhase_ops env base branch false idx repos hne]
    rw [List.filter_append, List.filter_append]
    have hloop : (cloneLoop env base branch (filterForks false repos) idx).2.2.2.filter
        isFilteredReport = [] := by
      rw [List.filter_eq_nil_iff]
      intro o ho
      rcases cloneLoop_ops env base branch (filterForks false repos) idx o ho with
        h | h | h | h | h
      · rw [h]; simp [isFilteredReport]
      · rcases h with ⟨q, h⟩; rw [h]; simp [isFilteredReport]
      · rcases h with ⟨q, h⟩; rw [h]; simp [isFilteredReport]
      · rcases h with ⟨u, p, b, h, -⟩; rw [h]; simp [isFilteredReport]
      · rcases h with ⟨l, h⟩; rw [h]; simp [isFilteredReport]
    have hsummary : ([Op.reportSummary
        (cloneLoop env base branch (filterForks false repos) idx).1
        (cloneLoop env base branch (filterForks false repos) idx).2.1]).filter
          isFilteredReport = [] := rfl
    rw [hloop, hsummary]
    have hsum := filter_fork_length repos
    have hlen : filterForks false repos = repos.filter (fun r => !r.fork) := rfl
    by_cases hfork : (repos.filter (·.fork)).length = 0
    · rw [if_neg (by rw [hlen]; omega), if_pos hfork]
      rfl
    · rw [if_pos (by rw [hlen]; omega), if_neg hfork]
      have harith : repos.length - (filterForks false repos).length
          = (repos.filter (·.fork)).length := by
        rw [hlen]; omega
      rw [harith]
      rfl
  · intro env base branch idx repos u p b hmem
    exact hfilterOps env base branch false idx repos u p b hmem
  · intro env base branch idx repos u p b hmem
    exact hfilterOps env base branch true idx repos u p b hmem

theorem claim_C6_fork_filter_witness :
    (descF ∉ filterForks false [descF, descA])
      ∧ ((bulkClonePhase envSkipFail ("/r".toList) none false [] [descF, descA]).2.2.filter
          isFilteredReport = [Op.reportFiltered 1])
      ∧ ("https://github.com/acme/b.git".toList
          ∈ ([descF, descB].filter (fun r => !r.fork)).map (·.clone_url)) := by
  refine ⟨claim_C6_fork_filter.2.2.1 [descF, descA] descF (by decide), ?_, ?_⟩
  · have h := claim_C6_fork_filter.2.2.2.2.1 envSkipFail ("/r".toList) none []
      [descF, descA] (by decide)
    exact h.trans (by decide)
  · exact claim_C6_fork_filter.2.2.2.2.2.1 envSkipFail ("/r".toList) none []
      [descF, descB] ("https://github.com/acme/b.git".toList) pathB none (by decide)

/-- Claim C2 (amended): when the resolved local path already exists,
`clone_repository` performs no subprocess operation at all — its whole trace
is the single already-exists report — and returns the skip outcome `false`.
That outcome is however the same boolean the function returns on a hard
per-repository failure, and the bulk caller counts every `false` in the one
`skipped_count`: `cloned` counts the `true` outcomes, `skipped` counts the
`false` outcomes (skips and failures together), and the two always sum to
the number of descriptors attempted. -/
theorem claim_C2_skip_not_distinguished :
    (∀ (env : SysEnv) (base : Str) (index : List IndexEntry) (url : Str)
        (br : Option Str) (host org repo : Str),
        parse_git_url url = .ok (host, org, repo) →
        env.pathExists (get_local_path base host org repo) = true →
        clone_repository env base index url br
          = (false, index, [Op.reportExists (get_local_path base host org repo)]))
  ∧ (∀ (env : SysEnv) (base : Str) (branch : Option Str)
        (repos : List RepoDescriptor) (index : List IndexEntry),
        (cloneLoop env base branch repos index).1
          = (repos.map (fun r => cloneOutcome env base r.clone_url branch)).count true)
  ∧ (∀ (env : SysEnv) (base : Str) (branch : Option Str)
        (repos : List RepoDescriptor) (index : List IndexEntry),
        (cloneLoop env base branch repos index).2.1
          = (repos.map (fun r => cloneOutcome env base r.clone_url branch)).count false)
  ∧ (∀ (env : SysEnv) (base : Str) (branch : Option Str)
        (repos : List RepoDescriptor) (index : List IndexEntry),
        (cloneLoop env base branch repos index).1
            + (cloneLoop env base branch repos index).2.1 = repos.length) := by
  refine ⟨?_, fun env base branch repos index => (cloneLoop_counts env base branch repos index).1,
    fun env base branch repos index => (cloneLoop_counts env base branch repos index).2,
    cloneLoop_length⟩
  intro env base index url br host org repo hp hex
  unfold clone_repository
  rw [hp]
  dsimp only
  rw [if_pos hex]

/-- Claim C2 counterexample: a run with exactly one skip (descriptor `a`,
whose path exists — no `git clone` is attempted for it) and one hard
per-repository failure (descriptor `b`, whose `git clone` is invoked and
fails) ends with the single summary `cloned = 0, skipped = 2`: the bulk
caller counts the skip and the hard failure in the same `skipped` counter,
so the skip outcome is not distinguished from a hard error by the caller's
counts. -/
theorem claim_C2_counterexample :
    c2run.map (fun x => x.1) = some 0
      ∧ (c2run.getD (0, [], [])).2.2.filter isSummary = [Op.reportSummary 0 2]
      ∧ Op.reportExists pathA ∈ (c2run.getD (0, [], [])).2.2
      ∧ (c2run.getD (0, [], [])).2.2.filter isGitClone
          = [Op.gitClone ("https://github.com/acme/b.git".toList) pathB none] := by
  refine ⟨rfl, by decide, by decide, by decide⟩

theorem claim_C2_skip_not_distinguished_witness :
    clone_repository envSkipFail ("/r".toList) []
        ("https://github.com/acme/a.git".toList) none
      = (false, [], [Op.reportExists pathA])
      ∧ (cloneLoop envSkipFail ("/r".toList) none [descA, descB] []).1
          + (cloneLoop envSkipFail ("/r".toList) none [descA, descB] []).2.1 = 2 := by
  constructor
  · have h := claim_C2_skip_not_distinguished.1 envSkipFail ("/r".toList) []
      ("https://github.com/acme/a.git".toList) none ("github.com".toList)
      ("acme".toList) ("a".toList) rfl (by decide)
    exact h
  · exact claim_C2_skip_not_distinguished.2.2.2 envSkipFail ("/r".toList) none
      [descA, descB] []

/-- Claim C10: `clone_org_user_repos` is total at its boundary — its
`try/except` wrapper turns every internal failure (URL that does not parse
as an org/user reference, a host other than github.com, a not-found or
HTTP enumeration failure) into the printed error report and the return
value 0, which is exactly the value returned for an organization whose
enumeration succeeds with zero repositories. -/
theorem claim_C10_bulk_total :
    (∀ (env : SysEnv) (fenv : FetchEnv) (base : Str) (index : List IndexEntry)
        (url : Str) (br : Option Str) (incl : Bool) (fuel : Nat) (e : Str),
        parse_org_user_url url = .error e →
        clone_org_user_repos env fenv base index url br incl fuel
          = some (0, index, [Op.reportBulkError]))
  ∧ (∀ (env : SysEnv) (fenv : FetchEnv) (base : Str) (index : List IndexEntry)
        (url : Str) (br : Option Str) (incl : Bool) (fuel : Nat) (host ou : Str),
        parse_org_user_url url = .ok (host, ou) → host ≠ "github.com".toList →
        clone_org_user_repos env fenv base index url br incl fuel
          = some (0, index, [Op.reportBulkError]))
  ∧ (∀ (env : SysEnv) (fenv : FetchEnv) (base : Str) (index : List IndexEntry)
        (url : Str) (br : Option Str) (incl : Bool) (fuel : Nat) (host ou : Str),
        parse_org_user_url url = .ok (host, ou) → host = "github.com".toList →
        (fenv.fetchPage 1 = PageResult.notFound ∨ fenv.fetchPage 1 = PageResult.httpError) →
        clone_org_user_repos env fenv base index url br incl (fuel + 1)
          = some (0, index, [Op.reportBulkError]))
  ∧ (∀ (env : SysEnv) (fenv : FetchEnv) (base : Str) (index : List IndexEntry)
        (url : Str) (br : Option Str) (incl : Bool) (fuel : Nat) (host ou : Str),
        parse_org_user_url url = .ok (host, ou) → host = "github.com".toList →
        fenv.fetchPage 1 = PageResult.ok [] →
        clone_org_user_repos env fenv base index url br incl (fuel + 1)
          = some (0, index, [Op.reportNoRepos])) := by
  refine ⟨?_, ?_, ?_, ?_⟩
  · intro env fenv base index url br incl fuel e hp
    simp [clone_org_user_repos, hp]
  · intro env fenv base index url br incl fuel host ou hp hhost
    simp only [clone_org_user_repos, hp, fetch_github_repos, if_neg hhost]
  · intro env fenv base index url br incl fuel host ou hp hhost hfail
    subst hhost
    rcases hfail with hf | hf <;>
      simp [clone_org_user_repos, hp, fetch_github_repos, fetchLoop, hf]
  · intro env fenv base index url br incl fuel host ou hp hhost hempty
    subst hhost
    simp [clone_org_user_repos, hp, fetch_github_repos, fetchLoop, hempty,
      bulkClonePhase]

theorem claim_C10_bulk_total_witness :
    clone_org_user_repos envMissing fenvNotFound ("/r".toList) []
        ("https://github.com/acme/widget".toList) none false 5
      = some (0, [], [Op.reportBulkError])
      ∧ clone_org_user_repos envMissing fenvNotFound ("/r".toList) []
          ("https://gitlab.example/acme".toList) none false 5
        = some (0, [], [Op.reportBulkError])
      ∧ clone_org_user_repos envMissing fenvNotFound ("/r".toList) []
          ("https://github.com/acme".toList) none false 5
        = some (0, [], [Op.reportBulkError])
      ∧ clone_org_user_repos envMissing fenvEmpty ("/r".toList) []
          ("https://github.com/acme".toList) none false 5
        = some (0, [], [Op.reportNoRepos]) := by
  refine ⟨?_, ?_, ?_, ?_⟩
  · exact claim_C10_bulk_total.1 envMissing fenvNotFound ("/r".toList) []
      ("https://github.com/acme/widget".toList) none false 5 _ rfl
  · exact claim_C10_bulk_total.2.1 envMissing fenvNotFound ("/r".toList) []
      ("https://gitlab.example/acme".toList) none false 5
      ("gitlab.example".toList) ("acme".toList) rfl (by decide)
  · exact claim_C10_bulk_total.2.2.1 envMissing fenvNotFound ("/r".toList) []
      ("https://github.com/acme".toList) none false 4
      ("github.com".toList) ("acme".toList) rfl rfl (Or.inl rfl)
  · exact claim_C10_bulk_total.2.2.2 envMissing fenvEmpty ("/r".toList) []
      ("https://github.com/acme".toList) none false 4
      ("github.com".toList) ("acme".toList) rfl rfl rfl
